import Mathlib

/-!
Verification of the coverage-feedback engine of a coverage-guided greybox
fuzzer.  The definitions below are shallow embeddings of the Rust source:

* `src/coverage/mod.rs`        — `CoverageFeedback`, its ordering, priorities
* `src/coverage/block.rs`      — `BlockCoverage::update_from_path`
* `src/coverage/edge.rs`       — `EdgeCoverage::update_from_path`
* `src/coverage/raw_path.rs`   — `RawPathCoverage::update_from_path`
* `src/coverage/per_function.rs` — `PerFunctionPathCoverage` and its reducer
* `src/fuzzer/mod.rs`          — `summarize_coverage`, the crash-dedup branch

Hash maps keyed by block ids (`FxHashMap<u32, _>`) are embedded as total
functions with a default value (0, resp. `none`), hash sets of digests as
`Finset`s.  Machine integers (`u32`, `usize`) are embedded as `Nat`; the only
place a machine-integer bound shows up is `usize::MAX`, the sentinel initial
value of the uniqueness accumulator, kept explicit as `USIZE_MAX`.  Fallible
code (Rust panics via `unwrap` / `expect`) is embedded with `Option`, `none`
standing for a panic.
-/

namespace CovPlay

/-- Sentinel initial value of the uniqueness accumulators: `usize::MAX`. -/
def USIZE_MAX : Nat := 2 ^ 64 - 1

/-- Native-endian byte serialization of a `u32`, as in `num.to_ne_bytes()`
(little-endian host assumed; each block id contributes exactly 4 bytes). -/
def toNeBytes (n : Nat) : List Nat :=
  [n % 256, n / 256 % 256, n / 2 ^ 16 % 256, n / 2 ^ 24 % 256]

/-- Digest of a path.  The source feeds the byte serialization of the path to
`md5::compute`; the external md5 crate is not part of this repository, so the
digest is embedded as the serialized byte sequence itself (an injective digest,
i.e. md5 idealized as collision-free). -/
def computeHash (path : List Nat) : List Nat :=
  path.foldr (fun n acc => toNeBytes n ++ acc) []

/-- `CoverageFeedback` from `src/coverage/mod.rs`. -/
inductive CoverageFeedback where
  | NewBlock (uniqueness : Nat)
  | NewEdge (uniqueness : Nat)
  | NewPath (uniqueness : Nat)
  | NoCoverage (cov : Nat)
  | Old (inner : CoverageFeedback)
deriving DecidableEq

/-- `CoverageFeedback::priority` (the variant bucket rank used as the
fallback of the comparison). -/
def CoverageFeedback.priority : CoverageFeedback → Nat
  | .NewBlock _ => 5
  | .NewEdge _ => 4
  | .NewPath _ => 3
  | .NoCoverage _ => 2
  | .Old _ => 1

/-- `CoverageFeedback::new_cov`. -/
def CoverageFeedback.new_cov : CoverageFeedback → Bool
  | .NewBlock _ => true
  | .NewEdge _ => true
  | .NewPath _ => true
  | _ => false

/-- `CoverageFeedback::get_edge_uniqueness`.  On any variant other than
`NewEdge` and `NoCoverage` the source hits `unreachable!` (a panic); those
cases are mapped to 0 and are never exercised by the embedded callers, which
only pass edge feedback here. -/
def CoverageFeedback.get_edge_uniqueness : CoverageFeedback → Nat
  | .NewEdge u => u
  | .NoCoverage c => c
  | _ => 0

/-- The comparison from `impl PartialOrd for CoverageFeedback`
(`src/coverage/mod.rs` lines 91-120).  The source's `partial_cmp` returns
`Some` in every arm, so `Ord::cmp` (which unwraps it) is this total function.
The match arms are in the source's order; in particular the
`(NoCoverage(..), _)` arm fires for every right-hand variant other than
`NoCoverage`, including `Old`. -/
def CoverageFeedback.cmp : CoverageFeedback → CoverageFeedback → Ordering
  | .NewBlock u1, .NewBlock u2 => compare u2 u1
  | .NewEdge u1, .NewEdge u2 => compare u2 u1
  | .NewPath u1, .NewPath u2 => compare u2 u1
  | .NoCoverage c1, .NoCoverage c2 => compare c2 c1
  | .NoCoverage _, _ => .lt
  | .Old c1, .Old c2 => CoverageFeedback.cmp c1 c2
  | a, b => compare a.priority b.priority

/-! ## Block coverage (`src/coverage/block.rs`) -/

/-- One iteration of the loop in `BlockCoverage::update_from_path`: bump the
hit count of `b` (`entry ... and_modify(+= 1).or_insert(1)`, with absent keys
read as count 0), record whether the key was fresh, and fold the post-update
count into the uniqueness accumulator. -/
def blockStep (acc : (Nat → Nat) × Bool × Nat) (b : Nat) : (Nat → Nat) × Bool × Nat :=
  let count := acc.1 b + 1
  (Function.update acc.1 b count, acc.2.1 || (acc.1 b == 0), min acc.2.2 count)

/-- `BlockCoverage::update_from_path`: the hit-count map is threaded through
the trace; the feedback is `NewBlock` when some key was fresh, else
`NoCoverage`, carrying the minimum post-update count seen (initially
`usize::MAX`). -/
def blockUpdate (blocks : Nat → Nat) (path : List Nat) :
    (Nat → Nat) × CoverageFeedback :=
  let r := path.foldl blockStep (blocks, false, USIZE_MAX)
  (r.1, if r.2.1 then .NewBlock r.2.2 else .NoCoverage r.2.2)

/-- The post-update hit counts along a trace: position by position, the count
of that block immediately after its increment.  This is the sequence of values
the source folds with `min` into `uniq`. -/
def postCounts (m : Nat → Nat) : List Nat → List Nat
  | [] => []
  | b :: rest => (m b + 1) :: postCounts (Function.update m b (m b + 1)) rest

/-- Uniqueness score of a trace against a block hit-count map: the minimum of
the post-update hit counts over the trace, starting from the `usize::MAX`
sentinel. -/
def blockUniq (m : Nat → Nat) (path : List Nat) : Nat :=
  (postCounts m path).foldl min USIZE_MAX

/-! ## Edge coverage (`src/coverage/edge.rs`) -/

/-- `path.windows(2)` as a list of pairs. -/
def edgePairs : List Nat → List (Nat × Nat)
  | a :: b :: rest => (a, b) :: edgePairs (b :: rest)
  | _ => []

/-- One iteration of the loop in `EdgeCoverage::update_from_path` (the file as
shipped in `src/coverage/edge.rs`): bump the edge's hit count and record
whether the key was fresh. -/
def edgeStepSrc (acc : (Nat × Nat → Nat) × Bool) (e : Nat × Nat) :
    (Nat × Nat → Nat) × Bool :=
  (Function.update acc.1 e (acc.1 e + 1), acc.2 || (acc.1 e == 0))

/-- `EdgeCoverage::update_from_path` exactly as written in
`src/coverage/edge.rs`: it returns a bare `bool` (any fresh edge?), computing
no uniqueness and no `CoverageFeedback` — contradicting the `CoverageMetric`
trait in `src/coverage/mod.rs`, which declares the return type
`CoverageFeedback`, and `PerFunctionPathCoverage::update_from_path`, which
calls `get_edge_uniqueness` on the result. -/
def edgeUpdateSrc (edges : Nat × Nat → Nat) (path : List Nat) :
    (Nat × Nat → Nat) × Bool :=
  (edgePairs path).foldl edgeStepSrc (edges, false)

/-- One iteration of the hit-count loop of the feedback-returning edge metric,
also tracking the minimum post-update count. -/
def edgeStep (acc : (Nat × Nat → Nat) × Bool × Nat) (e : Nat × Nat) :
    (Nat × Nat → Nat) × Bool × Nat :=
  let count := acc.1 e + 1
  (Function.update acc.1 e count, acc.2.1 || (acc.1 e == 0), min acc.2.2 count)

/-- Modelled from the spec: the `CoverageFeedback`-returning
`EdgeCoverage::update_from_path` that the `CoverageMetric` trait declares and
that `PerFunctionPathCoverage::update_from_path` invokes; the file
`src/coverage/edge.rs` holds only a stale `bool`-returning version.  Per the
spec: increment the hit count of every adjacent pair, compute uniqueness as
the minimum post-update edge count over the trace's edges (sentinel
`usize::MAX`), and emit `NewEdge` or `NoCoverage` by the any-fresh-key rule. -/
def edgeUpdate (edges : Nat × Nat → Nat) (path : List Nat) :
    (Nat × Nat → Nat) × CoverageFeedback :=
  let r := (edgePairs path).foldl edgeStep (edges, false, USIZE_MAX)
  (r.1, if r.2.1 then .NewEdge r.2.2 else .NoCoverage r.2.2)

/-! ## Raw path coverage (`src/coverage/raw_path.rs`) -/

/-- `RawPathCoverage::update_from_path`: hash the whole trace, insert the
digest into the set, report whether it was fresh.  The variant payloads are
modelled from the spec (`NewPath{uniqueness: 0}` / `NoCoverage(0)`): the file
as shipped carries a stale variant shape
(`NewPath{block_uniqueness: 0, edge_uniqueness: 0}` and a payload-free
`NoCoverage`) that no longer matches the `CoverageFeedback` enum of
`src/coverage/mod.rs`; the set logic is from the source. -/
def rawPathUpdate (paths : Finset (List Nat)) (path : List Nat) :
    Finset (List Nat) × CoverageFeedback :=
  let h := computeHash path
  (insert h paths, if h ∈ paths then .NoCoverage 0 else .NewPath 0)

/-! ## Fuzzer driver fragments (`src/fuzzer/mod.rs`) -/

/-- `get_metric_priority` (`src/coverage/mod.rs`): the static priority of the
metric of that name, via `get_coverage_metric_by_name(..).priority()`
(block 100, edge 90, path 10, pfp 20, rawpath 10).  On any other name the
source unwraps `None` (a panic); those names are never passed by the embedded
caller. -/
def getMetricPriority (name : String) : Nat :=
  if name = "block" then 100
  else if name = "edge" then 90
  else if name = "path" then 10
  else if name = "pfp" then 20
  else if name = "rawpath" then 10
  else 0

/-- `Fuzzer::summarize_coverage`: fold over the per-metric feedback map
(name, any-new-coverage flag); a metric contributes only when its name is in
`use_coverage` and it reported new coverage, in which case `any_cov` is set
and the priority is maxed with the metric's static priority. -/
def summarizeCoverage (useCov : List String) (cov : List (String × Bool)) :
    Bool × Nat :=
  cov.foldl
    (fun acc p =>
      if p.1 ∈ useCov then
        if p.2 then (true, max acc.2 (getMetricPriority p.1)) else acc
      else acc)
    (false, 0)

/-- The crash-handling branch of `Fuzzer::run_and_get_coverage`
(`src/fuzzer/mod.rs` lines 380-399), for a target that exited via `signal`:
on SIGSEGV (11) / SIGABRT (6) / SIGBUS (7) it deduplicates by
`path.last().unwrap()` — `none` models the panic of that `unwrap` on an empty
trace — inserting the last block into `exit_blocks` and saving the crash
exactly when the block was fresh; other signals are logged and ignored. -/
def crashStep (exitBlocks : Finset Nat) (signal : Nat) (path : List Nat) :
    Option (Finset Nat × Bool) :=
  if signal = 11 ∨ signal = 6 ∨ signal = 7 then
    match path.getLast? with
    | none => none
    | some b => some (insert b exitBlocks, b ∉ exitBlocks)
  else
    some (exitBlocks, false)

/-! ## Per-function path coverage (`src/coverage/per_function.rs`)

The digest sets (`coverage: FxHashMap<BlockID, FxHashSet<Digest>>`) are
embedded as one `Finset` of (function entry, digest) pairs: the set keyed by a
function `f` is the image of the fiber over `f` (`pfpDigestSet` below), and
`FxHashSet::insert` on the set keyed by `f` is `Finset.insert` of the pair.
The loop stack and the `first_to_lasts` table are total functions into
`Option`, absent keys reading as `none`.  The recursion of `reduce_fun1` is
made total with a `fuel` parameter (the source recursion terminates because
every call consumes at least one trace element; every theorem below either
holds for all fuels or instantiates a fuel at least the trace length). -/

/-- The mutable digest-set state of `PerFunctionPathCoverage`: the pair set
described above together with the running `total_cov` counter. -/
structure PfpCov where
  cov : Finset (Nat × List Nat)
  total : Nat
deriving DecidableEq

/-- `PerFunctionPathCoverage::compute_hash_and_update_cov`: hash the reduced
path, warn and return `false` on an empty path, otherwise insert the digest
into the set keyed by the path's first block, bumping `total_cov` when the
digest was fresh. -/
def computeHashAndUpdateCov (S : PfpCov) (path : List Nat) : PfpCov × Bool :=
  match path with
  | [] => (S, false)
  | first :: _ =>
    let h := computeHash path
    let fresh := (first, h) ∉ S.cov
    (⟨insert (first, h) S.cov, if fresh then S.total + 1 else S.total⟩, fresh)

mutual

/-- `PerFunctionPathCoverage::reduce_fun1`: consume one function instance from
the cursor `path`.  Returns the updated digest state, whether this instance's
reduced path was a fresh digest, and the remaining cursor; `none` models a
panic (the `.expect` on a block with no `first_to_lasts` entry) as well as
fuel exhaustion.  On an empty cursor the source logs and returns `false`
without consuming anything. -/
def reduceFun1 (ftl : Nat → Option (Finset Nat)) (k : Nat) (fuel : Nat)
    (S : PfpCov) (path : List Nat) : Option (PfpCov × Bool × List Nat) :=
  match fuel with
  | 0 => none
  | fuel + 1 =>
    match path with
    | [] => some (S, false, [])
    | first :: rest =>
      match ftl first with
      | none => none
      | some lasts =>
        if first ∈ lasts then
          some ((computeHashAndUpdateCov S [first]).1,
            (computeHashAndUpdateCov S [first]).2, rest)
        else
          pfpLoop ftl k fuel lasts S [first] (fun _ => none) false rest

/-- The `while !path.is_empty()` loop of `reduce_fun1`, carrying the local
reduced buffer, the loop stack (block ↦ (times, last_idx)), and the dead
`new_cov` accumulator (assigned by the source but discarded at every return).
The three inner branches are, in the source's order: function call (the block
has a `first_to_lasts` entry), exit block, intraprocedural block with the
K-bounded loop collapse. -/
def pfpLoop (ftl : Nat → Option (Finset Nat)) (k : Nat) (fuel : Nat)
    (lasts : Finset Nat) (S : PfpCov) (reduced : List Nat)
    (stack : Nat → Option (Nat × Nat)) (newCov : Bool) (path : List Nat) :
    Option (PfpCov × Bool × List Nat) :=
  match fuel with
  | 0 => none
  | fuel + 1 =>
    match path with
    | [] =>
      some ((computeHashAndUpdateCov S reduced).1,
        (computeHashAndUpdateCov S reduced).2, [])
    | b :: rest =>
      if (ftl b).isSome then
        match reduceFun1 ftl k fuel S (b :: rest) with
        | none => none
        | some (S', fresh, remaining) =>
          pfpLoop ftl k fuel lasts S' (reduced ++ [b]) stack (fresh || newCov)
            remaining
      else if b ∈ lasts then
        some ((computeHashAndUpdateCov S (reduced ++ [b])).1,
          (computeHashAndUpdateCov S (reduced ++ [b])).2, rest)
      else
        match stack b with
        | some (times, lastIdx) =>
          let stack1 : Nat → Option (Nat × Nat) := fun z =>
            match stack z with
            | some (t, li) => if li ≤ lastIdx then some (t, li) else none
            | none => none
          if times < k then
            pfpLoop ftl k fuel lasts S (reduced ++ [b])
              (Function.update stack1 b (some (times + 1, reduced.length)))
              newCov rest
          else
            pfpLoop ftl k fuel lasts S (reduced.take (lastIdx + 1)) stack1
              newCov rest
        | none =>
          pfpLoop ftl k fuel lasts S (reduced ++ [b])
            (Function.update stack b (some (1, reduced.length))) newCov rest

end

/-- The top-level loop of `PerFunctionPathCoverage::update_from_path`:
`while !path.is_empty() { new_cov = self.reduce_fun(&mut path) || new_cov; }`
with `reduce_fun` fixing the unroll bound `k = 2`. -/
def pfpReduceAll (ftl : Nat → Option (Finset Nat)) (fuel : Nat) (S : PfpCov)
    (newCov : Bool) (path : List Nat) : Option (PfpCov × Bool) :=
  match fuel with
  | 0 => none
  | fuel + 1 =>
    match path with
    | [] => some (S, newCov)
    | _ :: _ =>
      match reduceFun1 ftl 2 fuel S path with
      | none => none
      | some (S', fresh, remaining) =>
        pfpReduceAll ftl fuel S' (fresh || newCov) remaining

/-- The full mutable state of `PerFunctionPathCoverage`: the embedded block
and edge hit-count maps plus the digest-set state. -/
structure PfpState where
  blockCov : Nat → Nat
  edgeCov : Nat × Nat → Nat
  pfp : PfpCov

/-- The state of `PerFunctionPathCoverage` at fuzzer start: every count and
set empty. -/
def pfpInit : PfpState := ⟨fun _ => 0, fun _ => 0, ⟨∅, 0⟩⟩

/-- `PerFunctionPathCoverage::update_from_path`: block feedback and edge
feedback on the raw trace, then the reducer; the result is the
highest-ranking of new-block, new-edge, new-path (the latter carrying the
edge uniqueness), else `NoCoverage(edge uniqueness)`. -/
def pfpUpdateFromPath (ftl : Nat → Option (Finset Nat)) (fuel : Nat)
    (st : PfpState) (path : List Nat) : Option (PfpState × CoverageFeedback) :=
  let rb := blockUpdate st.blockCov path
  let re := edgeUpdate st.edgeCov path
  match pfpReduceAll ftl fuel st.pfp false path with
  | none => none
  | some (C, newCov) =>
    let fb :=
      if rb.2.new_cov then rb.2
      else if re.2.new_cov then re.2
      else if newCov then CoverageFeedback.NewPath re.2.get_edge_uniqueness
      else CoverageFeedback.NoCoverage re.2.get_edge_uniqueness
    some (⟨rb.1, re.1, C⟩, fb)

/-- Iterate `update_from_path` over a list of traces; `none` as soon as one
call panics. -/
def runPfp (ftl : Nat → Option (Finset Nat)) (fuel : Nat) (st : PfpState) :
    List (List Nat) → Option PfpState
  | [] => some st
  | t :: ts =>
    match pfpUpdateFromPath ftl fuel st t with
    | none => none
    | some (st', _) => runPfp ftl fuel st' ts

/-- The digest set keyed by function `f` in the pair-set representation. -/
def pfpDigestSet (C : PfpCov) (f : Nat) : Finset (List Nat) :=
  (C.cov.filter (fun p => p.1 = f)).image Prod.snd

/-- A `first_to_lasts` table holding one single function: entry `e`, exit set
`{x}`. -/
def singleFtl (e x : Nat) : Nat → Option (Finset Nat) :=
  fun z => if z = e then some {x} else none

example :
    (pfpUpdateFromPath (singleFtl 1 3) 10 pfpInit [1, 2, 2, 2, 3]).map
      (fun r => (pfpDigestSet r.1.pfp 1, r.1.pfp.total, r.2)) =
    some ({computeHash [1, 2, 2, 3]}, 1, .NewBlock 1) := by decide

example :
    reduceFun1 (singleFtl 1 3) 2 9 ⟨∅, 0⟩ [1, 2, 2, 2, 2, 2, 3] =
      reduceFun1 (singleFtl 1 3) 2 9 ⟨∅, 0⟩ [1, 2, 2, 3] := by decide

example :
    (reduceFun1 (singleFtl 1 2) 2 9 ⟨∅, 0⟩ [1, 1, 2, 2]).map
      (fun r => (r.1.total, r.2)) = some (2, true, []) := by decide

example : (blockUpdate (fun _ => 0) [1, 2, 2, 2, 3]).2 = .NewBlock 1 := by decide
example : (edgeUpdateSrc (fun _ => 0) [1, 2]).2 = true := by decide
example : (rawPathUpdate ∅ []).2 = .NewPath 0 := by decide
example : CoverageFeedback.cmp (.NoCoverage 0) (.Old (.NoCoverage 0)) = .lt := by decide
example : CoverageFeedback.cmp (.Old (.NoCoverage 0)) (.NoCoverage 0) = .lt := by decide
example : crashStep ∅ 11 [] = none := by decide

/-! ## Characterization of the block hit-count fold -/

theorem blockFold_fst (path : List Nat) :
    ∀ (m : Nat → Nat) (nc : Bool) (u : Nat) (b : Nat),
      (path.foldl blockStep (m, nc, u)).1 b = m b + path.count b := by
  induction path with
  | nil => intro m nc u b; simp
  | cons a rest ih =>
    intro m nc u b
    simp only [List.foldl_cons, blockStep, List.count_cons]
    rw [ih]
    by_cases h : b = a
    · subst h; simp [Function.update]; omega
    · simp [Function.update, h, Ne.symm h]

theorem blockFold_snd (path : List Nat) :
    ∀ (m : Nat → Nat) (nc : Bool) (u : Nat),
      (path.foldl blockStep (m, nc, u)).2.1 =
        (nc || path.any (fun b => m b == 0)) := by
  induction path with
  | nil => intro m nc u; simp
  | cons a rest ih =>
    intro m nc u
    simp only [List.foldl_cons, blockStep, List.any_cons]
    rw [ih]
    by_cases h : m a = 0
    · simp [h]
    · have hfun : (fun b => Function.update m a (m a + 1) b == 0) =
          (fun b => m b == 0) := by
        funext b
        by_cases hb : b = a
        · subst hb; simp [Function.update, h]
        · simp [Function.update, hb]
      simp [h, hfun, Bool.or_assoc]

theorem blockFold_thd (path : List Nat) :
    ∀ (m : Nat → Nat) (nc : Bool) (u : Nat),
      (path.foldl blockStep (m, nc, u)).2.2 = (postCounts m path).foldl min u := by
  induction path with
  | nil => intro m nc u; simp [postCounts]
  | cons a rest ih =>
    intro m nc u
    simp only [List.foldl_cons, blockStep, postCounts]
    rw [ih]

theorem blockUpdate_fst (m : Nat → Nat) (path : List Nat) (b : Nat) :
    (blockUpdate m path).1 b = m b + path.count b :=
  blockFold_fst path m false USIZE_MAX b

theorem blockUpdate_snd (m : Nat → Nat) (path : List Nat) :
    (blockUpdate m path).2 =
      if path.any (fun b => m b == 0) then .NewBlock (blockUniq m path)
      else .NoCoverage (blockUniq m path) := by
  simp only [blockUpdate, blockFold_snd, blockFold_thd, Bool.false_or, blockUniq]

theorem any_eq_zero_iff (m : Nat → Nat) (path : List Nat) :
    path.any (fun b => m b == 0) = true ↔ ∃ b ∈ path, m b = 0 := by
  simp [List.any_eq_true]

/-! ## Characterization of the source edge hit-count fold -/

theorem edgeFoldSrc_fst (ps : List (Nat × Nat)) :
    ∀ (g : Nat × Nat → Nat) (nc : Bool) (e : Nat × Nat),
      (ps.foldl edgeStepSrc (g, nc)).1 e = g e + ps.count e := by
  induction ps with
  | nil => intro g nc e; simp
  | cons a rest ih =>
    intro g nc e
    simp only [List.foldl_cons, edgeStepSrc, List.count_cons]
    rw [ih]
    by_cases h : e = a
    · subst h; simp [Function.update]; omega
    · simp [Function.update, h, Ne.symm h]

theorem edgeFoldSrc_snd (ps : List (Nat × Nat)) :
    ∀ (g : Nat × Nat → Nat) (nc : Bool),
      (ps.foldl edgeStepSrc (g, nc)).2 = (nc || ps.any (fun e => g e == 0)) := by
  induction ps with
  | nil => intro g nc; simp
  | cons a rest ih =>
    intro g nc
    simp only [List.foldl_cons, edgeStepSrc, List.any_cons]
    rw [ih]
    by_cases h : g a = 0
    · simp [h]
    · have hfun : (fun e => Function.update g a (g a + 1) e == 0) =
          (fun e => g e == 0) := by
        funext e
        by_cases he : e = a
        · subst he; simp [Function.update, h]
        · simp [Function.update, he]
      simp [h, hfun, Bool.or_assoc]



/-! ## Claim C4 — block metric functional correctness -/

/-- C4: for every trace, `BlockCoverage::update_from_path` increments the hit
count of each block once per occurrence, and returns `NewBlock{uniqueness}`
when at least one block's count transitioned from 0 to 1, else
`NoCoverage(uniqueness)`, where uniqueness is the minimum post-update hit
count over the trace (sentinel `usize::MAX` on an empty trace). -/
theorem blockUpdate_spec (m : Nat → Nat) (path : List Nat) :
    (∀ b, (blockUpdate m path).1 b = m b + path.count b) ∧
    (blockUpdate m path).2 =
      (if ∃ b ∈ path, m b = 0 then CoverageFeedback.NewBlock (blockUniq m path)
       else CoverageFeedback.NoCoverage (blockUniq m path)) := by
  refine ⟨fun b => blockUpdate_fst m path b, ?_⟩
  rw [blockUpdate_snd]
  by_cases hc : ∃ b ∈ path, m b = 0
  · rw [if_pos ((any_eq_zero_iff m path).mpr hc), if_pos hc]
  · have hfalse : path.any (fun b => m b == 0) = false := by
      rw [← Bool.not_eq_true]
      exact fun hh => hc ((any_eq_zero_iff m path).mp hh)
    rw [hfalse, if_neg hc]
    simp

/-! ## Claim C7 — double observation -/

/-- C7 counterexample: observing the trace `[1]` twice in a row starting from
the prior state in which `[1]` has already been observed once does not yield a
new-coverage feedback on the first of the two observations (it yields
`NoCoverage`), refuting the claim's "from any prior state". -/
theorem observe_twice_cex :
    ((blockUpdate ((blockUpdate (fun _ => 0) [1]).1) [1]).2).new_cov = false ∧
    (blockUpdate ((blockUpdate (fun _ => 0) [1]).1) [1]).2 =
      CoverageFeedback.NoCoverage 2 := by
  constructor <;> decide

/-- C7 amended: for the block, edge (the `bool`-returning source version) and
raw-path metrics, the second of two consecutive observations of the same trace
never reports new coverage, from any prior state; the first observation
reports new coverage from the initial (empty) state provided the trace is
nonempty (block), has length at least 2 (edge), while raw-path reports a new
path from any prior state not containing the trace's digest. -/
theorem observe_twice_spec :
    (∀ (m : Nat → Nat) (T : List Nat),
      ((blockUpdate (blockUpdate m T).1 T).2).new_cov = false) ∧
    (∀ (g : Nat × Nat → Nat) (T : List Nat),
      (edgeUpdateSrc (edgeUpdateSrc g T).1 T).2 = false) ∧
    (∀ (R : Finset (List Nat)) (T : List Nat),
      (rawPathUpdate (rawPathUpdate R T).1 T).2 = CoverageFeedback.NoCoverage 0) ∧
    (∀ T : List Nat, T ≠ [] →
      ((blockUpdate (fun _ => 0) T).2).new_cov = true) ∧
    (∀ T : List Nat, 2 ≤ T.length →
      (edgeUpdateSrc (fun _ => 0) T).2 = true) ∧
    (∀ (R : Finset (List Nat)) (T : List Nat), computeHash T ∉ R →
      (rawPathUpdate R T).2 = CoverageFeedback.NewPath 0) := by
  refine ⟨?_, ?_, ?_, ?_, ?_, ?_⟩
  · intro m T
    have hfalse : T.any (fun b => (blockUpdate m T).1 b == 0) = false := by
      rw [← Bool.not_eq_true, any_eq_zero_iff]
      rintro ⟨b, hb, h0⟩
      rw [blockUpdate_fst] at h0
      have : 0 < T.count b := List.count_pos_iff.mpr hb
      omega
    rw [blockUpdate_snd, hfalse]
    simp [CoverageFeedback.new_cov]
  · intro g T
    rw [edgeUpdateSrc, edgeFoldSrc_snd, Bool.false_or, ← Bool.not_eq_true,
      List.any_eq_true]
    rintro ⟨e, he, h0⟩
    rw [show (edgeUpdateSrc g T).1 = ((edgePairs T).foldl edgeStepSrc (g, false)).1
        from rfl, edgeFoldSrc_fst] at h0
    have : 0 < (edgePairs T).count e := List.count_pos_iff.mpr he
    simp only [beq_iff_eq] at h0
    omega
  · intro R T
    have : computeHash T ∈ (rawPathUpdate R T).1 := Finset.mem_insert_self _ _
    simp [rawPathUpdate, this]
  · intro T hT
    match T, hT with
    | b :: rest, _ =>
      simp [blockUpdate_snd, CoverageFeedback.new_cov]
  · intro T hT
    match T, hT with
    | a :: b :: rest, _ =>
      rw [edgeUpdateSrc, edgeFoldSrc_snd, Bool.false_or, List.any_eq_true]
      exact ⟨(a, b), by rw [edgePairs]; exact List.mem_cons_self _ _, by simp⟩
  · intro R T hR
    simp [rawPathUpdate, hR]

/-- C7 witness: the amended statement instantiated at concrete states and
traces, every hypothesis discharged by evaluation. -/
theorem observe_twice_spec_witness :
    ((blockUpdate (blockUpdate (fun _ => 0) [1]).1 [1]).2).new_cov = false ∧
    ((blockUpdate (fun _ => 0) [1]).2).new_cov = true ∧
    (edgeUpdateSrc (fun _ => 0) [1, 2]).2 = true ∧
    (rawPathUpdate ({[0]} : Finset (List Nat)) [5]).2 = CoverageFeedback.NewPath 0 :=
  ⟨observe_twice_spec.1 (fun _ => 0) [1],
   observe_twice_spec.2.2.2.1 [1] (by decide),
   observe_twice_spec.2.2.2.2.1 [1, 2] (by decide),
   observe_twice_spec.2.2.2.2.2 {[0]} [5] (by decide)⟩

/-! ## Claim C3 — the feedback ordering -/

/-- C3: the comparison on `CoverageFeedback` is not a total order, against the
spec's declared intent (and the contract of Rust's `Ord`, which the source
implements with this comparison): `NoCoverage(0)` versus `Old(NoCoverage(0))`
compares `Less` in both directions — the `(NoCoverage(..), _)` match arm fires
one way, the `priority()` fallback (2 vs 1 reversed) the other — so
antisymmetry fails and `NoCoverage(u)` is not greater than `Old(f)`. -/
theorem feedback_cmp_not_antisymm_bug :
    CoverageFeedback.cmp (.NoCoverage 0) (.Old (.NoCoverage 0)) = .lt ∧
    CoverageFeedback.cmp (.Old (.NoCoverage 0)) (.NoCoverage 0) = .lt := by
  constructor <;> rfl

/-! ## Claim C5 — the edge metric as shipped -/

/-- C5: `EdgeCoverage::update_from_path` as shipped in
`src/coverage/edge.rs` increments the edge hit counts but returns a bare
boolean — no `NewEdge` variant and no uniqueness — contradicting the
`CoverageMetric` trait declaration and its caller
`PerFunctionPathCoverage::update_from_path` (which reads
`get_edge_uniqueness()` off the result): on the trace `[1, 2]` from the empty
state it yields `true` and count 1 for edge `(1, 2)`. -/
theorem edge_metric_returns_bool_bug :
    (edgeUpdateSrc (fun _ => 0) [1, 2]).2 = true ∧
    (edgeUpdateSrc (fun _ => 0) [1, 2]).1 (1, 2) = 1 := by
  constructor <;> decide

/-! ## Claim C6 — the empty trace -/

/-- C6 counterexample: from the empty coverage state, observing the empty
trace on the raw-path metric does not return `NoCoverage` and does not leave
the state unchanged: the digest of the empty trace is inserted and `NewPath`
is returned. -/
theorem empty_trace_rawpath_cex :
    (rawPathUpdate (∅ : Finset (List Nat)) []).2 = CoverageFeedback.NewPath 0 ∧
    (rawPathUpdate (∅ : Finset (List Nat)) []).1 ≠ (∅ : Finset (List Nat)) := by
  constructor <;> decide

/-- C6 amended: on the empty trace the block metric, the edge metric (both the
shipped `bool`-returning version and the spec-modelled feedback version) and
the per-function-path metric return no-coverage with the `usize::MAX` sentinel
and leave their state unchanged; the raw-path metric instead inserts the
digest of the empty trace, returning `NewPath{0}` when that digest is fresh
and `NoCoverage(0)` otherwise. -/
theorem empty_trace_metrics (m : Nat → Nat) (g : Nat × Nat → Nat)
    (R : Finset (List Nat)) (ftl : Nat → Option (Finset Nat)) (st : PfpState)
    (fuel : Nat) :
    blockUpdate m [] = (m, CoverageFeedback.NoCoverage USIZE_MAX) ∧
    edgeUpdateSrc g [] = (g, false) ∧
    edgeUpdate g [] = (g, CoverageFeedback.NoCoverage USIZE_MAX) ∧
    pfpUpdateFromPath ftl (fuel + 1) st [] =
      some (st, CoverageFeedback.NoCoverage USIZE_MAX) ∧
    rawPathUpdate R [] =
      (insert (computeHash []) R,
        if computeHash [] ∈ R then CoverageFeedback.NoCoverage 0
        else CoverageFeedback.NewPath 0) :=
  ⟨rfl, rfl, rfl, rfl, rfl⟩

/-! ## Claim C8 — the driver's coverage projection -/

/-- C8 counterexample: with `use_cov = {block}` and the block metric reporting
new coverage, `summarize_coverage` assigns priority 100 (the metric's static
priority), not the bucket rank 5 the claim states. -/
theorem summarize_priority_cex :
    summarizeCoverage ["block"] [("block", true)] = (true, 100) ∧
    (100 : Nat) ≠ 5 := by
  constructor <;> decide

/-- Characterization of the `summarize_coverage` fold from an arbitrary
accumulator. -/
theorem summarizeFold_eq (cov : List (String × Bool)) :
    ∀ (useCov : List String) (b : Bool) (n : Nat),
      cov.foldl
        (fun acc p =>
          if p.1 ∈ useCov then
            if p.2 then (true, max acc.2 (getMetricPriority p.1)) else acc
          else acc)
        (b, n) =
      (b || cov.any (fun p => decide (p.1 ∈ useCov) && p.2),
       ((cov.filter (fun p => decide (p.1 ∈ useCov) && p.2)).map
          (fun p => getMetricPriority p.1)).foldl max n) := by
  induction cov with
  | nil => intro useCov b n; simp
  | cons p rest ih =>
    intro useCov b n
    by_cases hmem : p.1 ∈ useCov
    · by_cases hp : p.2 = true
      · simp [hmem, hp, ih, List.filter_cons]
      · simp only [Bool.not_eq_true] at hp
        simp [hmem, hp, ih, List.filter_cons]
    · simp [hmem, ih, List.filter_cons]

/-- C8 amended: the projection reports new coverage exactly when some metric
in `use_cov` reported new coverage, and the priority is the maximum, over the
metrics of `use_cov` that reported new coverage, of the metric's static
priority `get_metric_priority` (block 100, edge 90, pfp 20, path 10,
rawpath 10) — not the feedback bucket rank — and 0 when none did. -/
theorem summarize_coverage_spec (useCov : List String)
    (cov : List (String × Bool)) :
    summarizeCoverage useCov cov =
      (cov.any (fun p => decide (p.1 ∈ useCov) && p.2),
       ((cov.filter (fun p => decide (p.1 ∈ useCov) && p.2)).map
          (fun p => getMetricPriority p.1)).foldl max 0) := by
  rw [summarizeCoverage, summarizeFold_eq]
  simp

/-! ## Claim C9 — crash deduplication on an empty trace -/

/-- C9: the crash-handling branch of `run_and_get_coverage` panics (unwraps
`None`) when the target died by signal 11, 6 or 7 and the decoded trace is
empty, instead of saving or skipping the crash; on any nonempty trace it
completes, deduplicating by the trace's last block. -/
theorem crash_dedup_empty_trace (ebs : Finset Nat) (s : Nat)
    (hs : s = 11 ∨ s = 6 ∨ s = 7) :
    crashStep ebs s [] = none ∧
    ∀ (p : List Nat) (b : Nat), (crashStep ebs s (p ++ [b])).isSome = true := by
  constructor
  · simp [crashStep, hs]
  · intro p b
    simp [crashStep, hs, List.getLast?_concat]

/-- C9 witness: signal 11 with the empty trace panics; with trace `[42]` the
branch completes. -/
theorem crash_dedup_empty_trace_witness :
    crashStep (∅ : Finset Nat) 11 [] = none ∧
    (crashStep (∅ : Finset Nat) 11 ([] ++ [42])).isSome = true :=
  ⟨(crash_dedup_empty_trace ∅ 11 (Or.inl rfl)).1,
   (crash_dedup_empty_trace ∅ 11 (Or.inl rfl)).2 [] 42⟩



/-! ## Claim C2 — concrete scenario 1 -/

/-- C2 counterexample: with the single function of entry 1 and exit `{3}`,
observing `[1, 2, 2, 2, 3]` from the empty per-function-path state does not
return `NewPath{uniqueness: 0}`: from the empty state all blocks are fresh,
so block feedback wins. -/
theorem scenario1_feedback_cex :
    (pfpUpdateFromPath (singleFtl 1 3) 10 pfpInit [1, 2, 2, 2, 3]).map
        (fun r => r.2) ≠
      some (CoverageFeedback.NewPath 0) := by
  decide

/-- C2 amended: observing `[1, 2, 2, 2, 3]` with `K = 2` from the empty state
leaves the digest set keyed by function 1 containing exactly one hash — the
hash of the reduced trace `[1, 2, 2, 3]` — with `total_cov = 1`, and the
observation returns `NewBlock{uniqueness: 1}` (block feedback outranks the
new reduced path). -/
theorem scenario1_reduction :
    (pfpUpdateFromPath (singleFtl 1 3) 10 pfpInit [1, 2, 2, 2, 3]).map
        (fun r => (pfpDigestSet r.1.pfp 1, r.1.pfp.total, r.2)) =
      some ({computeHash [1, 2, 2, 3]}, 1, CoverageFeedback.NewBlock 1) := by
  decide

/-! ## Claim C10 — the `total_cov` invariant -/

theorem chuc_inv (S : PfpCov) (p : List Nat) (h : S.total = S.cov.card) :
    (computeHashAndUpdateCov S p).1.total =
      (computeHashAndUpdateCov S p).1.cov.card := by
  cases p with
  | nil => exact h
  | cons first rest =>
    simp only [computeHashAndUpdateCov]
    by_cases hmem : (first, computeHash (first :: rest)) ∈ S.cov
    · simp [hmem, Finset.insert_eq_self.mpr hmem, h]
    · simp [hmem, Finset.card_insert_of_not_mem hmem, h]

theorem reduce_preserves_inv (fuel : Nat) :
    (∀ (ftl : Nat → Option (Finset Nat)) (k : Nat) (S : PfpCov)
        (path : List Nat) (r : PfpCov × Bool × List Nat),
      reduceFun1 ftl k fuel S path = some r →
      S.total = S.cov.card → r.1.total = r.1.cov.card) ∧
    (∀ (ftl : Nat → Option (Finset Nat)) (k : Nat) (lasts : Finset Nat)
        (S : PfpCov) (reduced : List Nat) (stack : Nat → Option (Nat × Nat))
        (nc : Bool) (path : List Nat) (r : PfpCov × Bool × List Nat),
      pfpLoop ftl k fuel lasts S reduced stack nc path = some r →
      S.total = S.cov.card → r.1.total = r.1.cov.card) := by
  induction fuel with
  | zero =>
    constructor
    · intro ftl k S path r hr
      rw [reduceFun1] at hr
      exact absurd hr (by simp)
    · intro ftl k lasts S reduced stack nc path r hr
      rw [pfpLoop] at hr
      exact absurd hr (by simp)
  | succ f ih =>
    constructor
    · intro ftl k S path r hr hI
      cases path with
      | nil =>
        rw [reduceFun1] at hr
        obtain rfl := Option.some.inj hr
        exact hI
      | cons first rest =>
        rw [reduceFun1] at hr
        cases hftl : ftl first with
        | none => rw [hftl] at hr; exact absurd hr (by simp)
        | some lasts =>
          rw [hftl] at hr
          simp only [] at hr
          by_cases hmem : first ∈ lasts
          · rw [if_pos hmem] at hr
            obtain rfl := Option.some.inj hr
            exact chuc_inv S [first] hI
          · rw [if_neg hmem] at hr
            exact ih.2 ftl k lasts S [first] (fun _ => none) false rest r hr hI
    · intro ftl k lasts S reduced stack nc path r hr hI
      cases path with
      | nil =>
        rw [pfpLoop] at hr
        obtain rfl := Option.some.inj hr
        exact chuc_inv S reduced hI
      | cons b rest =>
        rw [pfpLoop] at hr
        by_cases hcall : (ftl b).isSome
        · rw [if_pos hcall] at hr
          cases hrec : reduceFun1 ftl k f S (b :: rest) with
          | none => rw [hrec] at hr; exact absurd hr (by simp)
          | some q =>
            rw [hrec] at hr
            have hq : q.1.total = q.1.cov.card :=
              ih.1 ftl k S (b :: rest) q hrec hI
            exact ih.2 ftl k lasts q.1 (reduced ++ [b]) stack (q.2.1 || nc)
              q.2.2 r hr hq
        · rw [if_neg hcall] at hr
          by_cases hlast : b ∈ lasts
          · rw [if_pos hlast] at hr
            obtain rfl := Option.some.inj hr
            exact chuc_inv S (reduced ++ [b]) hI
          · rw [if_neg hlast] at hr
            cases hst : stack b with
            | none =>
              rw [hst] at hr
              exact ih.2 ftl k lasts S (reduced ++ [b])
                (Function.update stack b (some (1, reduced.length))) nc rest r
                hr hI
            | some tl =>
              rw [hst] at hr
              obtain ⟨times, lastIdx⟩ := tl
              simp only [] at hr
              by_cases htimes : times < k
              · rw [if_pos htimes] at hr
                exact ih.2 ftl k lasts S (reduced ++ [b]) _ nc rest r hr hI
              · rw [if_neg htimes] at hr
                exact ih.2 ftl k lasts S (reduced.take (lastIdx + 1)) _ nc rest
                  r hr hI

theorem reduceAll_inv (fuel : Nat) :
    ∀ (ftl : Nat → Option (Finset Nat)) (S : PfpCov) (nc : Bool)
      (path : List Nat) (r : PfpCov × Bool),
      pfpReduceAll ftl fuel S nc path = some r →
      S.total = S.cov.card → r.1.total = r.1.cov.card := by
  induction fuel with
  | zero =>
    intro ftl S nc path r hr
    rw [pfpReduceAll] at hr
    exact absurd hr (by simp)
  | succ f ih =>
    intro ftl S nc path r hr hI
    cases path with
    | nil =>
      rw [pfpReduceAll] at hr
      obtain rfl := Option.some.inj hr
      exact hI
    | cons a rest =>
      rw [pfpReduceAll] at hr
      cases hrec : reduceFun1 ftl 2 f S (a :: rest) with
      | none => rw [hrec] at hr; exact absurd hr (by simp)
      | some q =>
        rw [hrec] at hr
        exact ih ftl q.1 (q.2.1 || nc) q.2.2 r hr
          ((reduce_preserves_inv f).1 ftl 2 S (a :: rest) q hrec hI)

theorem pfpUpdate_inv (ftl : Nat → Option (Finset Nat)) (fuel : Nat)
    (st : PfpState) (path : List Nat) (r : PfpState × CoverageFeedback)
    (hr : pfpUpdateFromPath ftl fuel st path = some r)
    (hI : st.pfp.total = st.pfp.cov.card) :
    r.1.pfp.total = r.1.pfp.cov.card := by
  rw [pfpUpdateFromPath] at hr
  cases hra : pfpReduceAll ftl fuel st.pfp false path with
  | none => rw [hra] at hr; exact absurd hr (by simp)
  | some q =>
    rw [hra] at hr
    obtain rfl := Option.some.inj hr
    exact reduceAll_inv fuel ftl st.pfp false path q hra hI

theorem runPfp_inv (ftl : Nat → Option (Finset Nat)) (fuel : Nat) :
    ∀ (ts : List (List Nat)) (st st' : PfpState),
      runPfp ftl fuel st ts = some st' →
      st.pfp.total = st.pfp.cov.card →
      st'.pfp.total = st'.pfp.cov.card := by
  intro ts
  induction ts with
  | nil =>
    intro st st' hr hI
    obtain rfl := Option.some.inj hr
    exact hI
  | cons t rest ih =>
    intro st st' hr hI
    rw [runPfp] at hr
    cases hu : pfpUpdateFromPath ftl fuel st t with
    | none => rw [hu] at hr; exact absurd hr (by simp)
    | some q =>
      rw [hu] at hr
      exact ih q.1 st' hr (pfpUpdate_inv ftl fuel st t q hu hI)

theorem card_eq_sum_digest (s : Finset (Nat × List Nat)) :
    s.card =
      ∑ f ∈ s.image Prod.fst,
        ((s.filter (fun p => p.1 = f)).image Prod.snd).card := by
  rw [Finset.card_eq_sum_card_fiberwise
    (fun x hx => Finset.mem_image_of_mem Prod.fst hx)]
  refine Finset.sum_congr rfl (fun f hf => ?_)
  rw [Finset.card_image_of_injOn]
  intro p hp q hq hpq
  have hp1 : p.1 = f := (Finset.mem_filter.mp hp).2
  have hq1 : q.1 = f := (Finset.mem_filter.mp hq).2
  exact Prod.ext (hp1.trans hq1.symm) hpq

/-- C10: after any sequence of `update_from_path` calls from the initial
state (every one of which completed without panic), the running `total_cov`
counter equals the sum, over the functions owning a digest set, of the size
of that function's digest set. -/
theorem pfp_total_cov_invariant (ftl : Nat → Option (Finset Nat)) (fuel : Nat)
    (ts : List (List Nat)) (st : PfpState)
    (h : runPfp ftl fuel pfpInit ts = some st) :
    st.pfp.total =
      ∑ f ∈ st.pfp.cov.image Prod.fst, (pfpDigestSet st.pfp f).card := by
  have hI : st.pfp.total = st.pfp.cov.card :=
    runPfp_inv ftl fuel ts pfpInit st h (by simp [pfpInit])
  rw [hI]
  exact card_eq_sum_digest st.pfp.cov

/-- C10 witness: the invariant after observing `[1, 2, 2, 2, 3]` once. -/
theorem pfp_total_cov_invariant_witness :
    (PfpState.mk (blockUpdate pfpInit.blockCov [1, 2, 2, 2, 3]).1
        (edgeUpdate pfpInit.edgeCov [1, 2, 2, 2, 3]).1
        ⟨{(1, computeHash [1, 2, 2, 3])}, 1⟩).pfp.total =
      ∑ f ∈ (PfpState.mk (blockUpdate pfpInit.blockCov [1, 2, 2, 2, 3]).1
          (edgeUpdate pfpInit.edgeCov [1, 2, 2, 2, 3]).1
          ⟨{(1, computeHash [1, 2, 2, 3])}, 1⟩).pfp.cov.image Prod.fst,
        (pfpDigestSet (PfpState.mk
            (blockUpdate pfpInit.blockCov [1, 2, 2, 2, 3]).1
            (edgeUpdate pfpInit.edgeCov [1, 2, 2, 2, 3]).1
            ⟨{(1, computeHash [1, 2, 2, 3])}, 1⟩).pfp f).card :=
  pfp_total_cov_invariant (singleFtl 1 3) 10 [[1, 2, 2, 2, 3]] _ rfl

/-! ## Claim C1 — loop collapse -/

theorem reduceFun1_cons (ftl : Nat → Option (Finset Nat)) (k fuel : Nat)
    (S : PfpCov) (first : Nat) (rest : List Nat) :
    reduceFun1 ftl k (fuel + 1) S (first :: rest) =
      match ftl first with
      | none => none
      | some lasts =>
        if first ∈ lasts then
          some ((computeHashAndUpdateCov S [first]).1,
            (computeHashAndUpdateCov S [first]).2, rest)
        else pfpLoop ftl k fuel lasts S [first] (fun _ => none) false rest := rfl

theorem pfpLoop_cons (ftl : Nat → Option (Finset Nat)) (k fuel : Nat)
    (lasts : Finset Nat) (S : PfpCov) (reduced : List Nat)
    (stack : Nat → Option (Nat × Nat)) (nc : Bool) (b : Nat)
    (rest : List Nat) :
    pfpLoop ftl k (fuel + 1) lasts S reduced stack nc (b :: rest) =
      if (ftl b).isSome then
        match reduceFun1 ftl k fuel S (b :: rest) with
        | none => none
        | some (S', fresh, remaining) =>
          pfpLoop ftl k fuel lasts S' (reduced ++ [b]) stack (fresh || nc)
            remaining
      else if b ∈ lasts then
        some ((computeHashAndUpdateCov S (reduced ++ [b])).1,
          (computeHashAndUpdateCov S (reduced ++ [b])).2, rest)
      else
        match stack b with
        | some (times, lastIdx) =>
          let stack1 : Nat → Option (Nat × Nat) := fun z =>
            match stack z with
            | some (t, li) => if li ≤ lastIdx then some (t, li) else none
            | none => none
          if times < k then
            pfpLoop ftl k fuel lasts S (reduced ++ [b])
              (Function.update stack1 b (some (times + 1, reduced.length)))
              nc rest
          else
            pfpLoop ftl k fuel lasts S (reduced.take (lastIdx + 1)) stack1
              nc rest
        | none =>
          pfpLoop ftl k fuel lasts S (reduced ++ [b])
            (Function.update stack b (some (1, reduced.length))) nc rest := rfl

/-- The loop-stack retain step: `loop_stack.retain(|_, (_, li)| *li <= last_idx)`. -/
def retainStack (stack : Nat → Option (Nat × Nat)) (lastIdx : Nat) :
    Nat → Option (Nat × Nat) :=
  fun z =>
    match stack z with
    | some (t, li) => if li ≤ lastIdx then some (t, li) else none
    | none => none

theorem reduceFun1_cons_entry (ftl : Nat → Option (Finset Nat)) (k fuel : Nat)
    (S : PfpCov) (first : Nat) (rest : List Nat) (lasts : Finset Nat)
    (hftl : ftl first = some lasts) :
    reduceFun1 ftl k (fuel + 1) S (first :: rest) =
      if first ∈ lasts then
        some ((computeHashAndUpdateCov S [first]).1,
          (computeHashAndUpdateCov S [first]).2, rest)
      else pfpLoop ftl k fuel lasts S [first] (fun _ => none) false rest := by
  rw [reduceFun1_cons, hftl]

theorem pfpLoop_exit (ftl : Nat → Option (Finset Nat)) (k fuel : Nat)
    (lasts : Finset Nat) (S : PfpCov) (reduced : List Nat)
    (stack : Nat → Option (Nat × Nat)) (nc : Bool) (b : Nat) (rest : List Nat)
    (hcall : ftl b = none) (hlast : b ∈ lasts) :
    pfpLoop ftl k (fuel + 1) lasts S reduced stack nc (b :: rest) =
      some ((computeHashAndUpdateCov S (reduced ++ [b])).1,
        (computeHashAndUpdateCov S (reduced ++ [b])).2, rest) := by
  rw [pfpLoop_cons, hcall]
  simp only [Option.isSome_none, Bool.false_eq_true, if_false]
  rw [if_pos hlast]

theorem pfpLoop_stack_fresh (ftl : Nat → Option (Finset Nat)) (k fuel : Nat)
    (lasts : Finset Nat) (S : PfpCov) (reduced : List Nat)
    (stack : Nat → Option (Nat × Nat)) (nc : Bool) (b : Nat) (rest : List Nat)
    (hcall : ftl b = none) (hlast : b ∉ lasts) (hst : stack b = none) :
    pfpLoop ftl k (fuel + 1) lasts S reduced stack nc (b :: rest) =
      pfpLoop ftl k fuel lasts S (reduced ++ [b])
        (Function.update stack b (some (1, reduced.length))) nc rest := by
  rw [pfpLoop_cons, hcall]
  simp only [Option.isSome_none, Bool.false_eq_true, if_false]
  rw [if_neg hlast, hst]

theorem pfpLoop_stack_bump (ftl : Nat → Option (Finset Nat)) (k fuel : Nat)
    (lasts : Finset Nat) (S : PfpCov) (reduced : List Nat)
    (stack : Nat → Option (Nat × Nat)) (nc : Bool) (b : Nat) (rest : List Nat)
    (times lastIdx : Nat) (hcall : ftl b = none) (hlast : b ∉ lasts)
    (hst : stack b = some (times, lastIdx)) (htimes : times < k) :
    pfpLoop ftl k (fuel + 1) lasts S reduced stack nc (b :: rest) =
      pfpLoop ftl k fuel lasts S (reduced ++ [b])
        (Function.update (retainStack stack lastIdx) b
          (some (times + 1, reduced.length))) nc rest := by
  rw [pfpLoop_cons, hcall]
  simp only [Option.isSome_none, Bool.false_eq_true, if_false]
  rw [if_neg hlast, hst]
  simp only []
  rw [if_pos htimes]
  rfl

theorem pfpLoop_stack_trunc (ftl : Nat → Option (Finset Nat)) (k fuel : Nat)
    (lasts : Finset Nat) (S : PfpCov) (reduced : List Nat)
    (stack : Nat → Option (Nat × Nat)) (nc : Bool) (b : Nat) (rest : List Nat)
    (times lastIdx : Nat) (hcall : ftl b = none) (hlast : b ∉ lasts)
    (hst : stack b = some (times, lastIdx)) (htimes : ¬ times < k) :
    pfpLoop ftl k (fuel + 1) lasts S reduced stack nc (b :: rest) =
      pfpLoop ftl k fuel lasts S (reduced.take (lastIdx + 1))
        (retainStack stack lastIdx) nc rest := by
  rw [pfpLoop_cons, hcall]
  simp only [Option.isSome_none, Bool.false_eq_true, if_false]
  rw [if_neg hlast, hst]
  simp only []
  rw [if_neg htimes]
  rfl

theorem pfpLoop_collapse (e b x : Nat) (hbe : b ≠ e) (hbx : b ≠ x)
    (hex : e ≠ x) :
    ∀ (m fuel : Nat) (S : PfpCov) (stack : Nat → Option (Nat × Nat)),
      m + 1 ≤ fuel → stack b = some (2, 2) →
      pfpLoop (singleFtl e x) 2 fuel {x} S [e, b, b] stack false
          (List.replicate m b ++ [x]) =
        some ((computeHashAndUpdateCov S [e, b, b, x]).1,
          (computeHashAndUpdateCov S [e, b, b, x]).2, []) := by
  have hftlb : singleFtl e x b = none := by simp [singleFtl, hbe]
  have hftlx : singleFtl e x x = none := by simp [singleFtl, hex.symm]
  have hbmem : ¬ b ∈ ({x} : Finset Nat) := by simp [hbx]
  intro m
  induction m with
  | zero =>
    intro fuel S stack hf hstack
    match fuel, hf with
    | f + 1, _ =>
      rw [show (List.replicate 0 b ++ [x] : List Nat) = [x] from rfl,
        pfpLoop_exit _ _ _ _ _ _ _ _ _ _ hftlx (Finset.mem_singleton_self x)]
      rfl
  | succ m ih =>
    intro fuel S stack hf hstack
    match fuel, hf with
    | f + 1, hf =>
      rw [List.replicate_succ, List.cons_append,
        pfpLoop_stack_trunc _ _ _ _ _ _ _ _ _ _ 2 2 hftlb hbmem hstack
          (by omega)]
      rw [show (List.take (2 + 1) [e, b, b] : List Nat) = [e, b, b] from rfl]
      exact ih f S _ (by omega) (by simp [retainStack, hstack])

theorem reduceFun1_collapse_eval (e b x : Nat) (hbe : b ≠ e) (hbx : b ≠ x)
    (hex : e ≠ x) :
    ∀ (m fuel : Nat) (S : PfpCov), m + 4 ≤ fuel →
      reduceFun1 (singleFtl e x) 2 fuel S
          (e :: List.replicate (m + 2) b ++ [x]) =
        some ((computeHashAndUpdateCov S [e, b, b, x]).1,
          (computeHashAndUpdateCov S [e, b, b, x]).2, []) := by
  have hftlb : singleFtl e x b = none := by simp [singleFtl, hbe]
  have hftle : singleFtl e x e = some {x} := by simp [singleFtl]
  have hbmem : ¬ b ∈ ({x} : Finset Nat) := by simp [hbx]
  intro m fuel S hf
  obtain ⟨f, rfl⟩ : ∃ f, fuel = f + 1 := ⟨fuel - 1, by omega⟩
  rw [List.cons_append, reduceFun1_cons_entry _ _ _ _ _ _ _ hftle]
  rw [if_neg (by simp [hex] : ¬ e ∈ ({x} : Finset Nat))]
  obtain ⟨f1, rfl⟩ : ∃ f1, f = f1 + 1 := ⟨f - 1, by omega⟩
  rw [List.replicate_succ, List.cons_append,
    pfpLoop_stack_fresh _ _ _ _ _ _ _ _ _ _ hftlb hbmem rfl]
  obtain ⟨f2, rfl⟩ : ∃ f2, f1 = f2 + 1 := ⟨f1 - 1, by omega⟩
  rw [List.replicate_succ]
  show pfpLoop (singleFtl e x) 2 (f2 + 1) {x} S [e, b]
      (Function.update (fun _ : Nat => (none : Option (Nat × Nat))) b
        (some (1, 1)))
      false (b :: (List.replicate m b ++ [x])) =
    some ((computeHashAndUpdateCov S [e, b, b, x]).1,
      (computeHashAndUpdateCov S [e, b, b, x]).2, [])
  have hst2 : Function.update (fun _ : Nat => (none : Option (Nat × Nat))) b
      (some (1, 1)) b = some (1, 1) :=
    Function.update_same _ _ _
  rw [pfpLoop_stack_bump _ _ _ _ _ _ _ _ _ _ _ _ hftlb hbmem hst2 (by omega)]
  exact pfpLoop_collapse e b x hbe hbx hex m f2 S _ (by omega)
    (by simp [Function.update_same])

/-- C1: for a single function `e (b)* x` and every iteration count `n` at
least the default unroll bound `K = 2`, `reduce_fun1` on the trace
`e b^n x` produces the same result — the same digest inserted for the same
reduced buffer, the same freshness answer, the same consumed cursor — as on
`e b^K x`. -/
theorem loop_collapse_reduceFun1 (e b x : Nat) (S : PfpCov) (n : Nat)
    (hn : 2 ≤ n) (hbe : b ≠ e) (hbx : b ≠ x) (hex : e ≠ x) :
    reduceFun1 (singleFtl e x) 2 (n + 2) S (e :: List.replicate n b ++ [x]) =
      reduceFun1 (singleFtl e x) 2 4 S (e :: List.replicate 2 b ++ [x]) := by
  obtain ⟨m, rfl⟩ : ∃ m, n = m + 2 := ⟨n - 2, by omega⟩
  rw [reduceFun1_collapse_eval e b x hbe hbx hex m (m + 2 + 2) S (by omega)]
  rw [show (2 : Nat) = 0 + 2 from rfl,
    reduceFun1_collapse_eval e b x hbe hbx hex 0 4 S (by omega)]

/-- C1 witness: the collapse at entry 1, body 2, exit 3, with `n = 5`. -/
theorem loop_collapse_reduceFun1_witness :
    (2 ≤ 5) ∧
    reduceFun1 (singleFtl 1 3) 2 7 ⟨∅, 0⟩ (1 :: List.replicate 5 2 ++ [3]) =
      reduceFun1 (singleFtl 1 3) 2 4 ⟨∅, 0⟩ (1 :: List.replicate 2 2 ++ [3]) :=
  ⟨by decide,
   loop_collapse_reduceFun1 1 2 3 ⟨∅, 0⟩ 5 (by decide) (by decide) (by decide)
     (by decide)⟩

end CovPlay
